import Mathlib

/-!
Verification of the linkedin-insights-agent run pipeline.

This file gives a shallow embedding, in Lean, of the parts of the program
that the specification talks about:

- the token estimation and chunk splitting utility (src/token-utils.ts),
- the keyword-fallback confidence computation
  (src/three-file-formatter.ts, InsightAnalyzer.calculateConfidence),
- the two-pass AI analysis pipeline of ClaudeService
  (analyzePost, parseAnalysisResponse, batchAnalyzePosts),
- the cross-expert aggregation engine (src/aggregation-formatter.ts,
  deduplicateInsights and combineMethodologies),
- the worker run-processing state machine (services/worker run-processor:
  processRunJob, updateRunStatus, incrementTokenUsage).

External collaborators (the Anthropic API, the browser automation service,
the relational store, the JSON repair library) are modelled as oracles:
records of outcomes passed in as an environment.  Floating point numbers in
the source hold only small decimal literals and results of additions and
comparisons on them, so they are modelled as rationals.  JavaScript strings
are modelled as Lean strings, with the case, trim and substring operations
implemented over the underlying character lists.
-/

/-! ## Shared string helpers (JavaScript semantics) -/

/-- Whitespace per the JavaScript regular expression class backslash-s
(space, tab, line and page breaks, and the common Unicode space characters). -/
def jsWhitespace (c : Char) : Bool :=
  c == ' ' || c == '\t' || c == '\n' || c == '\r' || c == '\x0b' || c == '\x0c' ||
  c.toNat == 0xa0 || c.toNat == 0x1680 || (0x2000 ≤ c.toNat && c.toNat ≤ 0x200a) ||
  c.toNat == 0x2028 || c.toNat == 0x2029 || c.toNat == 0x202f || c.toNat == 0x205f ||
  c.toNat == 0x3000 || c.toNat == 0xfeff

/-- JavaScript toLowerCase, restricted to the character level mapping of
Char.toLower (sufficient for the ASCII data handled here). -/
def jsToLower (s : String) : String := ⟨s.data.map Char.toLower⟩

/-- Drop JavaScript whitespace from both ends of a character list. -/
def jsTrimList (l : List Char) : List Char :=
  ((l.dropWhile jsWhitespace).reverse.dropWhile jsWhitespace).reverse

/-- JavaScript String.prototype.trim. -/
def jsTrim (s : String) : String := ⟨jsTrimList s.data⟩

/-- Does the pattern occur as a prefix of the list. -/
def listStartsWith : List Char → List Char → Bool
  | [], _ => true
  | _ :: _, [] => false
  | p :: ps, c :: cs => p == c && listStartsWith ps cs

/-- Does the pattern occur as a contiguous sublist. -/
def listHasSub (pat : List Char) : List Char → Bool
  | [] => listStartsWith pat []
  | c :: cs => listStartsWith pat (c :: cs) || listHasSub pat cs

/-- JavaScript String.prototype.includes. -/
def strIncludes (s pat : String) : Bool := listHasSub pat.data s.data

/-- JavaScript String.prototype.slice with arguments 0 and n. -/
def strTake (s : String) (n : Nat) : String := ⟨s.data.take n⟩

/-! ## First-occurrence deduplication (JavaScript Set based loops)

The source deduplicates repeatedly with the pattern: iterate, skip an item
whose key is already in a Set, otherwise record the key and keep the item.
keepFirstByAux is that loop with the seen set made explicit; seenAfter is
the final seen set of the same loop. -/

/-- Seen-set deduplication scan: keep each item whose key is not in the
seen set, adding its key as we go. -/
def keepFirstByAux {α κ : Type} [DecidableEq κ] (f : α → κ) (seen : List κ) :
    List α → List α
  | [] => []
  | x :: xs =>
    if f x ∈ seen then keepFirstByAux f seen xs
    else x :: keepFirstByAux f (f x :: seen) xs

/-- Seen set after running the deduplication scan over a list. -/
def seenAfter {α κ : Type} [DecidableEq κ] (f : α → κ) (seen : List κ) :
    List α → List κ
  | [] => seen
  | x :: xs =>
    if f x ∈ seen then seenAfter f seen xs
    else seenAfter f (f x :: seen) xs

/-- Keep only the first occurrence of each key. -/
def keepFirstBy {α κ : Type} [DecidableEq κ] (f : α → κ) (l : List α) : List α :=
  keepFirstByAux f [] l

/-- Chunk a list into consecutive batches of size n, mirroring the
JavaScript loop for i = 0; i < length; i += n over slice(i, i + n).
(For n = 0 that loop does not terminate; this model is only used with
positive n, the source default being 5.) -/
def chunked {α : Type} (n : Nat) : List α → List (List α)
  | [] => []
  | x :: xs => (x :: xs.take (n - 1)) :: chunked n (xs.drop (n - 1))
termination_by l => l.length
decreasing_by simp [List.length_drop]; omega

/-! ## Data model (src/types.ts) -/

/-- Engagement counters of one scraped post. -/
structure Engagement where
  likes : Nat
  comments : Nat
  shares : Nat
deriving DecidableEq, Repr

/-- One scraped content item (timestamps and author metadata, which no
claim mentions, are omitted). -/
structure LinkedInPost where
  id : String
  content : String
  engagement : Engagement
  contentType : Option String := none
  links : List String := []
  imageUrls : List String := []
deriving DecidableEq, Repr

/-- The fixed category enumeration of extracted insights. -/
inductive SalesCategory where
  | PROSPECTING | DISCOVERY | NURTURE | CLOSING | SALES_COMMS
  | CADENCES | STRATEGY | TEMPLATES | TACTICS
deriving DecidableEq, Repr

/-- The string value of each enum member in the source. -/
def SalesCategory.value : SalesCategory → String
  | .PROSPECTING => "prospecting"
  | .DISCOVERY => "discovery"
  | .NURTURE => "nurture"
  | .CLOSING => "closing"
  | .SALES_COMMS => "sales_comms"
  | .CADENCES => "cadences"
  | .STRATEGY => "strategy"
  | .TEMPLATES => "templates"
  | .TACTICS => "tactics"

/-- A named methodology extracted from source content. -/
structure Methodology where
  name : String
  description : String
  application : Option String := none
deriving DecidableEq, Repr

/-- One extracted, categorized, confidence-scored claim (the extraction
timestamp, wall-clock data, is omitted). -/
structure SalesInsight where
  id : String
  category : SalesCategory
  insight : String
  sourcePost : LinkedInPost
  confidence : ℚ
  actionableItems : List String := []
  templates : List String := []
deriving DecidableEq, Repr

/-- The per-source analysis result container. -/
structure InsightAnalysis where
  posts : List LinkedInPost := []
  insights : List SalesInsight := []
  templates : List String := []
  methodologies : List Methodology := []
deriving DecidableEq, Repr

/-- Configuration of one expert. -/
structure ExpertConfig where
  username : String
  weight : Option ℚ := none
deriving DecidableEq, Repr

/-- One expert together with the analysis of that expert. -/
structure ExpertAnalysis where
  expert : ExpertConfig
  analysis : InsightAnalysis
deriving DecidableEq, Repr

/-! ## TokenUtils (src/token-utils.ts)

Text is modelled as a list of characters so that the section split and the
concatenation invariant can be stated structurally. -/

namespace TokenUtils

/-- Estimated token count: the ceiling of length over four. -/
def estimateTokens (text : List Char) : Nat := (text.length + 3) / 4

/-- Does this position start a markdown section, that is, does the text
continue with two number signs followed by a whitespace character. -/
def isSectionStart (cs : List Char) : Bool :=
  match cs with
  | '#' :: '#' :: c :: _ => jsWhitespace c
  | _ => false

/-- Split into sections at every line start (after a newline) where a
section header begins, mirroring the split on the multiline lookahead for
two number signs plus whitespace.  The JavaScript split never cuts at
position zero of the string for a zero-width match, so the first section
keeps any leading header. -/
def splitSectionsAux (acc : List Char) : List Char → List (List Char)
  | [] => [acc.reverse]
  | c :: rest =>
    if c = '\n' ∧ isSectionStart rest then
      (c :: acc).reverse :: splitSectionsAux [] rest
    else splitSectionsAux (c :: acc) rest

/-- Split a text into markdown sections. -/
def splitSections (text : List Char) : List (List Char) := splitSectionsAux [] text

/-- State of the greedy packing loop: finished chunks, current chunk, and
the running token estimate of the current chunk. -/
structure PackState where
  chunks : List (List Char)
  current : List Char
  currentTokens : Nat

/-- One iteration of the greedy packing loop over sections. -/
def packSection (maxTokens : Nat) (st : PackState) (sec : List Char) : PackState :=
  if st.currentTokens + estimateTokens sec > maxTokens ∧ st.current ≠ [] then
    { chunks := st.chunks ++ [st.current], current := sec,
      currentTokens := estimateTokens sec }
  else
    { chunks := st.chunks, current := st.current ++ sec,
      currentTokens := st.currentTokens + estimateTokens sec }

/-- Final push of the packing loop: a non-empty current chunk is appended
to the finished chunks. -/
def finishChunks (st : PackState) : List (List Char) :=
  if st.current ≠ [] then st.chunks ++ [st.current] else st.chunks

/-- Split text into chunks that fit within the token limit: return the text
whole when it is under the limit, otherwise split along section boundaries
and greedily pack consecutive sections. -/
def splitByTokens (text : List Char) (maxTokens : Nat) : List (List Char) :=
  if estimateTokens text ≤ maxTokens then [text]
  else finishChunks ((splitSections text).foldl (packSection maxTokens) ⟨[], [], 0⟩)

end TokenUtils

/-! ## InsightAnalyzer keyword fallback confidence (src/three-file-formatter.ts) -/

namespace InsightAnalyzer

/-- Confidence of a keyword-fallback insight: two tenths per keyword match
capped at eight tenths, plus engagement bonuses, clamped to the interval
from one tenth to one. -/
def calculateConfidence (post : LinkedInPost) (keywordMatches : Nat) : ℚ :=
  let confidence : ℚ := min ((keywordMatches : ℚ) * (2/10)) (8/10)
  let totalEngagement :=
    post.engagement.likes + post.engagement.comments + post.engagement.shares
  let c1 := if totalEngagement > 100 then confidence + 1/10 else confidence
  let c2 := if totalEngagement > 500 then c1 + 1/10 else c1
  min (max c2 (1/10)) 1

end InsightAnalyzer

/-! ## ClaudeService (src/claude-service.ts, two-pass variant)

The Anthropic client, the JSON extraction regular expression, JSON.parse
and the jsonrepair library are external; a request outcome is modelled as
either a thrown error message or a response that the repair pipeline turns
into a structured payload (none when even repair fails, in which case the
source throws and catches internally, returning empty results). -/

namespace ClaudeService

/-- An insight as it appears in the parsed model response; the confidence
field may be absent. -/
structure RawInsight where
  category : String
  insight : String
  confidence : Option ℚ := none
deriving DecidableEq, Repr

/-- The parsed JSON payload of an extraction response. -/
structure ParsedAnalysis where
  insights : List RawInsight := []
  templates : List String := []
  actionableItems : List String := []
  methodologies : List Methodology := []
deriving DecidableEq, Repr

/-- Result shape of analyzePost and batchAnalyzePosts. -/
structure AnalysisResult where
  insights : List SalesInsight := []
  templates : List String := []
  actionableItems : List String := []
  methodologies : List Methodology := []
deriving DecidableEq, Repr

/-- The all-empty analysis result. -/
def emptyAnalysisResult : AnalysisResult := {}

/-- Map a category string from the model onto the enumeration; anything
unrecognized falls back to TACTICS. -/
def mapCategory (category : String) : SalesCategory :=
  if category = "PROSPECTING" then .PROSPECTING
  else if category = "DISCOVERY" then .DISCOVERY
  else if category = "NURTURE" then .NURTURE
  else if category = "CLOSING" then .CLOSING
  else if category = "SALES_COMMS" then .SALES_COMMS
  else if category = "CADENCES" then .CADENCES
  else if category = "STRATEGY" then .STRATEGY
  else if category = "TEMPLATES" then .TEMPLATES
  else if category = "TACTICS" then .TACTICS
  else .TACTICS

/-- JavaScript or-else on a numeric field: an absent value or the falsy
zero is replaced by the default, any other value is passed through. -/
def jsOrNum (v : Option ℚ) (d : ℚ) : ℚ :=
  match v with
  | none => d
  | some c => if c = 0 then d else c

/-- Build one SalesInsight from a parsed raw insight at a given index. -/
def mkInsight (post : LinkedInPost) (parsed : ParsedAnalysis) (ix : Nat)
    (raw : RawInsight) : SalesInsight :=
  { id := post.id ++ "-ai-" ++ toString ix
    category := mapCategory raw.category
    insight := raw.insight
    sourcePost := post
    confidence := jsOrNum raw.confidence (5/10)
    actionableItems := parsed.actionableItems
    templates := parsed.templates }

/-- Parse an extraction response: a missing or unrepairable payload yields
the empty result (the source throws and catches internally); otherwise the
insights are built with the category mapping and the or-else default of
one half on confidence.  No clamping happens on this path. -/
def parseAnalysisResponse (parsed : Option ParsedAnalysis) (post : LinkedInPost) :
    AnalysisResult :=
  match parsed with
  | none => emptyAnalysisResult
  | some p =>
    { insights := p.insights.enum.map (fun pr => mkInsight post p pr.1 pr.2)
      templates := p.templates
      actionableItems := p.actionableItems
      methodologies := p.methodologies }

/-- One model request recorded in the call trace, with the image
attachments it carried. -/
inductive ApiCall where
  | request (images : List String)
deriving DecidableEq, Repr

/-- External outcomes for one analyzePost invocation: per-image download
success, and the outcome of the first and of the retry request (a thrown
error message, or a response payload after repair). -/
structure PostEnv where
  download : String → Bool
  firstResult : Except String (Option ParsedAnalysis)
  retryResult : Except String (Option ParsedAnalysis)

/-- The image attachments of one request: up to five image URLs, keeping
those whose download succeeded. -/
def attachedImages (env : PostEnv) (post : LinkedInPost) : List String :=
  (post.imageUrls.take 5).filter env.download

/-- Analyze one post: download up to five images (failures skipped), issue
the extraction request, and on a thrown error retry once without images,
but only when images were attached and the error message contains the
substring image; any remaining failure yields the empty result.  The
second component records the requests issued. -/
def analyzePost (env : PostEnv) (post : LinkedInPost) :
    AnalysisResult × List ApiCall :=
  match env.firstResult with
  | .ok parsed => (parseAnalysisResponse parsed post, [.request (attachedImages env post)])
  | .error msg =>
    if attachedImages env post ≠ [] ∧ strIncludes msg "image" then
      match env.retryResult with
      | .ok parsed =>
        (parseAnalysisResponse parsed post, [.request (attachedImages env post), .request []])
      | .error _ =>
        (emptyAnalysisResult, [.request (attachedImages env post), .request []])
    else (emptyAnalysisResult, [.request (attachedImages env post)])

/-- Deduplication key of an insight local to one batch: category value plus
the first fifty characters of the text. -/
def insightKey (i : SalesInsight) : String :=
  i.category.value ++ "-" ++ strTake i.insight 50

/-- Deduplicate insights by category plus text prefix. -/
def deduplicateInsights (insights : List SalesInsight) : List SalesInsight :=
  keepFirstBy insightKey insights

/-- Deduplicate strings: drop blank entries, then keep first occurrences. -/
def deduplicateStrings (items : List String) : List String :=
  keepFirstBy id (items.filter (fun s => 0 < (jsTrim s).data.length))

/-- Deduplicate methodologies by exact name. -/
def deduplicateMethodologies (ms : List Methodology) : List Methodology :=
  keepFirstBy Methodology.name ms

/-- External outcomes for one batchAnalyzePosts invocation: the relevance
score each post obtains in pass one (scorePostRelevance already clamps its
parse result and maps request errors to defaults, so the outcome is just a
rational), and the pass-two analysis outcome per post. -/
structure BatchEnv where
  score : LinkedInPost → ℚ
  analyze : LinkedInPost → AnalysisResult

/-- Two-pass batch analysis: score every post in batches, keep the posts
scoring strictly above six tenths, and when none survive return the empty
result without invoking pass two; otherwise analyze the survivors in
batches, concatenate, and deduplicate.  The second component records the
posts sent to pass two. -/
def batchAnalyzePosts (env : BatchEnv) (batchSize : Nat)
    (posts : List LinkedInPost) : AnalysisResult × List LinkedInPost :=
  let relevanceScores :=
    (chunked batchSize posts).flatMap (fun batch => batch.map (fun p => (p, env.score p)))
  let relevantPosts :=
    (relevanceScores.filter (fun pr => decide ((6 : ℚ)/10 < pr.2))).map (·.1)
  if relevantPosts.isEmpty then (emptyAnalysisResult, [])
  else
    let calls :=
      (chunked batchSize relevantPosts).flatMap
        (fun batch => batch.map (fun p => (p, env.analyze p)))
    let allInsights := calls.flatMap (fun c => c.2.insights)
    let allTemplates := calls.flatMap (fun c => c.2.templates)
    let allActionableItems := calls.flatMap (fun c => c.2.actionableItems)
    let allMethodologies := calls.flatMap (fun c => c.2.methodologies)
    ({ insights := deduplicateInsights allInsights
       templates := deduplicateStrings allTemplates
       actionableItems := deduplicateStrings allActionableItems
       methodologies := deduplicateMethodologies allMethodologies },
     calls.map (·.1))

end ClaudeService

/-! ## AggregationFormatter (src/aggregation-formatter.ts) -/

namespace AggregationFormatter

/-- Cross-expert deduplication key: lowercased then trimmed full text. -/
def normalizedKey (s : String) : String := jsTrim (jsToLower s)

/-- Stable sort by confidence descending, the meaning of the JavaScript
sort with comparator b.confidence minus a.confidence. -/
def sortByConfidenceDesc (l : List SalesInsight) : List SalesInsight :=
  l.mergeSort (fun a b => decide (b.confidence ≤ a.confidence))

/-- One push step of the cross-expert insight loop: the accumulator is the
kept list together with the seen key set. -/
def dedupPush (acc : List SalesInsight × List String) (i : SalesInsight) :
    List SalesInsight × List String :=
  let key := normalizedKey i.insight
  if key ∈ acc.2 then acc else (acc.1 ++ [i], key :: acc.2)

/-- Deduplicate similar insights across experts: iterate over every expert
and every insight sharing one seen set, then sort by confidence. -/
def deduplicateInsights (expertAnalyses : List ExpertAnalysis) : List SalesInsight :=
  let collected :=
    expertAnalyses.foldl
      (fun acc ea => ea.analysis.insights.foldl dedupPush acc) ([], [])
  sortByConfidenceDesc collected.1

/-- Specification-side statement of the insight merge, following the words
of the specification: concatenate all experts insight lists, keep only the
first occurrence of each normalized full text, sort by confidence
descending. -/
def specCombinedInsights (expertAnalyses : List ExpertAnalysis) : List SalesInsight :=
  sortByConfidenceDesc
    (keepFirstBy (fun i => normalizedKey i.insight)
      (expertAnalyses.flatMap (fun ea => ea.analysis.insights)))

/-- A combined methodology: first occurrence content plus the accumulated
contributing expert usernames. -/
structure MethEntry where
  name : String
  description : String
  application : Option String
  sources : List String
deriving DecidableEq, Repr

/-- Append the expert username to the sources of an existing entry unless
it is already present. -/
def updEntry (username : String) (e : MethEntry) : MethEntry :=
  { e with sources := if username ∈ e.sources then e.sources else e.sources ++ [username] }

/-- Insert one methodology occurrence into the combined map (modelled as a
list of entries in key insertion order, the iteration order of a
JavaScript Map): when an entry with the same lowercased name exists the
expert username is appended to its sources unless already present,
otherwise a new entry is created from this occurrence. -/
def insertMeth (username : String) (meth : Methodology) :
    List MethEntry → List MethEntry
  | [] => [⟨meth.name, meth.description, meth.application, [username]⟩]
  | e :: es =>
    if jsToLower e.name = jsToLower meth.name then updEntry username e :: es
    else e :: insertMeth username meth es

/-- Combine methodologies from all experts, keyed by lowercased name. -/
def combineMethodologies (expertAnalyses : List ExpertAnalysis) : List MethEntry :=
  expertAnalyses.foldl
    (fun m ea =>
      ea.analysis.methodologies.foldl (fun m meth => insertMeth ea.expert.username meth m) m)
    []

/-- Flattened occurrence list: every (expert username, methodology) pair in
iteration order. -/
def methOccurrences (expertAnalyses : List ExpertAnalysis) :
    List (String × Methodology) :=
  expertAnalyses.flatMap
    (fun ea => ea.analysis.methodologies.map (fun m => (ea.expert.username, m)))

/-- Fold the occurrence list into the combined map. -/
def processOccs (m : List MethEntry) (occs : List (String × Methodology)) :
    List MethEntry :=
  occs.foldl (fun m o => insertMeth o.1 o.2 m) m

/-- The occurrences carrying a given lowercased name. -/
def occsWithKey (occs : List (String × Methodology)) (key : String) :
    List (String × Methodology) :=
  occs.filter (fun o => jsToLower o.2.name = key)

/-- Specification-side entry for one lowercased name: the first occurrence
supplies name, description and application, and the sources are the
contributing usernames with only first occurrences kept. -/
def specMethEntry (occs : List (String × Methodology)) (key : String) : MethEntry :=
  match occsWithKey occs key with
  | [] => ⟨"", "", none, []⟩
  | (u, m) :: rest =>
    ⟨m.name, m.description, m.application, keepFirstBy id (u :: rest.map (·.1))⟩

/-- Specification-side statement of the methodology merge over an
occurrence list: one entry per lowercased name in first-occurrence order. -/
def specCombineOccs (occs : List (String × Methodology)) : List MethEntry :=
  (keepFirstBy id (occs.map (fun o => jsToLower o.2.name))).map (specMethEntry occs)

/-- Specification-side statement of the methodology merge. -/
def specCombinedMethodologies (expertAnalyses : List ExpertAnalysis) : List MethEntry :=
  specCombineOccs (methOccurrences expertAnalyses)

end AggregationFormatter

/-! ## Worker run processor (services/worker run-processor)

The relational store is modelled as the state visible to one job: the run
row, the active session of its user, the latest pending login event, the
event rows, and the usage counter row of the user for the current period.
External collaborators (browser provisioning, cookie capture, the
scrape-analyze-bundle-store pipeline) are outcome oracles.  The outcome
records the status values written to the run row, the re-enqueued jobs with
their delays, whether the scraper was closed, and a rethrown error. -/

namespace RunProcessor

/-- Run status enumeration. -/
inductive RunStatus where
  | queued | needs_login | running | completed | failed
deriving DecidableEq, Repr

/-- Status name as written into event rows. -/
def statusName : RunStatus → String
  | .queued => "queued"
  | .needs_login => "needs_login"
  | .running => "running"
  | .completed => "completed"
  | .failed => "failed"

/-- The run row fields the worker reads and writes. -/
structure RunRow where
  userId : String
  status : RunStatus
  needsLoginUrl : Option String := none
  failureReason : Option String := none
  tokenEstimate : Option Nat := none
deriving DecidableEq, Repr

/-- Payload of a provisioned interactive login session. -/
structure SessionInfo where
  sessionId : String
  connectUrl : String
deriving DecidableEq, Repr

/-- The store state visible to one run job.  The usage counter row holds
runs used and tokens used for the current calendar month period. -/
structure WorkerDb where
  run : Option RunRow
  activeSession : Option (List String)
  pendingLogin : Option SessionInfo
  events : List String
  usage : Option (Nat × Nat)
deriving DecidableEq, Repr

/-- Result of the successful processing pipeline (scrape, analysis,
bundling, artifact persistence). -/
structure PipelineResult where
  tokensUsed : Nat
  refreshedCookies : List String
deriving DecidableEq, Repr

/-- Outcomes of the external collaborators for one invocation. -/
structure WorkerEnv where
  provision : Except String SessionInfo
  capture : Except String (List String)
  initResult : Except String Unit
  pipeline : Except String PipelineResult

/-- Worker configuration values used by the job. -/
structure Config where
  requeueDelayMs : Nat
deriving DecidableEq, Repr

/-- Everything one invocation of processRunJob produces: the new store
state, the run status values written in order, the delays of re-enqueued
follow-up jobs, whether the scraper was closed, and the rethrown error if
any. -/
structure RunOutcome where
  db : WorkerDb
  statusWrites : List RunStatus
  requeues : List Nat
  scraperClosed : Bool
  thrown : Option String
deriving DecidableEq, Repr

/-- updateRunStatus: write the status onto the run row (recording the
failure reason, defaulted to unknown, when failing) and insert one status
change event row.  There is no guard on the current status. -/
def updateRunStatusDb (db : WorkerDb) (status : RunStatus) (reason : Option String) :
    WorkerDb :=
  let run :=
    db.run.map (fun r =>
      { r with
        status := status
        failureReason :=
          if status = .failed then some (reason.getD "unknown") else r.failureReason })
  { db with run := run, events := db.events ++ ["status_" ++ statusName status] }

/-- saveSession: deactivate all prior sessions of the user and insert the
encrypted cookies as the new active session. -/
def saveSession (db : WorkerDb) (cookies : List String) : WorkerDb :=
  { db with activeSession := some cookies }

/-- incrementTokenUsage: read the usage counter row of the user for the
current month, then upsert it with runs used unchanged and tokens used set
to the read value plus the increment.  The returned pair is the row as
upserted; the addition is computed by the caller from the read snapshot. -/
def incrementTokenUsage (row : Option (Nat × Nat)) (tokens : Nat) : Nat × Nat :=
  let runsUsed := (row.map Prod.fst).getD 0
  let tokensUsed := (row.map Prod.snd).getD 0
  (runsUsed, tokensUsed + tokens)

/-- An upsert unconditionally replaces the row. -/
def upsertUsage (_db : Option (Nat × Nat)) (row : Nat × Nat) : Option (Nat × Nat) :=
  some row

/-- Two sequential increments: the second reads the row written by the
first. -/
def seqTokenIncrements (init : Option (Nat × Nat)) (t1 t2 : Nat) :
    Option (Nat × Nat) :=
  let d1 := upsertUsage init (incrementTokenUsage init t1)
  upsertUsage d1 (incrementTokenUsage d1 t2)

/-- Two concurrent increments interleaved so that both callers read the
same initial snapshot before either upsert lands; the upserts then land in
order. -/
def racedTokenIncrements (init : Option (Nat × Nat)) (t1 t2 : Nat) :
    Option (Nat × Nat) :=
  let w1 := incrementTokenUsage init t1
  let w2 := incrementTokenUsage init t2
  upsertUsage (upsertUsage init w1) w2

/-- The processing phase once a session is resolved: inside the try block
the scraper is initialized, the run transitions to running, and the
pipeline runs; on success the run row is updated to completed directly and
a completed event is inserted after the usage accounting; any exception is
caught once, the run transitions to failed with the exception message, and
the error is rethrown; the finally block always closes the scraper. -/
def runWithSession (env : WorkerEnv) (db : WorkerDb) : RunOutcome :=
  match env.initResult with
  | .error e =>
    let db1 := updateRunStatusDb db .failed (some e)
    ⟨db1, [.failed], [], true, some e⟩
  | .ok () =>
    let db1 := updateRunStatusDb db .running none
    match env.pipeline with
    | .error e =>
      let db2 := updateRunStatusDb db1 .failed (some e)
      ⟨db2, [.running, .failed], [], true, some e⟩
    | .ok res =>
      let db2 :=
        if res.refreshedCookies.isEmpty then db1 else saveSession db1 res.refreshedCookies
      let db3 := { db2 with usage := upsertUsage db2.usage (incrementTokenUsage db2.usage res.tokensUsed) }
      let run :=
        db3.run.map (fun r => { r with status := .completed, tokenEstimate := some res.tokensUsed })
      let db4 := { db3 with run := run, events := db3.events ++ ["completed"] }
      ⟨db4, [.running, .completed], [], true, none⟩

/-- processRunJob: drop the job silently when the run row is gone; with no
active session either provision a login session (setting needs login and
the redirect URL, recording a needs login event) and re-enqueue with the
fixed delay, or attempt cookie capture from the pending session, where an
empty capture or a thrown error re-enqueues with the fixed delay and only a
non-empty capture is saved as the active session and lets processing
continue. -/
def processRunJob (cfg : Config) (env : WorkerEnv) (db : WorkerDb) : RunOutcome :=
  match db.run with
  | none => ⟨db, [], [], false, none⟩
  | some run =>
    match db.activeSession with
    | some _ => runWithSession env db
    | none =>
      match db.pendingLogin with
      | none =>
        match env.provision with
        | .error e => ⟨db, [], [], false, some e⟩
        | .ok info =>
          let run1 := { run with status := .needs_login, needsLoginUrl := some info.connectUrl }
          let db1 :=
            { db with
              run := some run1
              pendingLogin := some info
              events := db.events ++ ["needs_login"] }
          ⟨db1, [.needs_login], [cfg.requeueDelayMs], false, none⟩
      | some _ =>
        match env.capture with
        | .error _ => ⟨db, [], [cfg.requeueDelayMs], false, none⟩
        | .ok [] => ⟨db, [], [cfg.requeueDelayMs], false, none⟩
        | .ok (c :: cs) => runWithSession env (saveSession db (c :: cs))

/-- Rank of a status in the state machine order; both terminal statuses
share the top rank. -/
def statusRank : RunStatus → Nat
  | .queued => 0
  | .needs_login => 1
  | .running => 2
  | .completed => 3
  | .failed => 3

end RunProcessor

/-! ## Concrete scenario fixtures

Closed instances used by counterexamples, by the code-bug evaluation, and
by the witnesses of the universally quantified theorems. -/

namespace Fixtures

/-- A post with no images. -/
def post1 : LinkedInPost :=
  { id := "p1", content := "raise your round", engagement := ⟨0, 0, 0⟩ }

/-- A post carrying one image URL. -/
def postImg : LinkedInPost :=
  { id := "p2", content := "deck teardown", engagement := ⟨0, 0, 0⟩,
    imageUrls := ["https://img/1.png"] }

/-- Extraction environment whose first request throws an error that does
not mention images, and whose retry would also fail. -/
def envPlainError : ClaudeService.PostEnv :=
  { download := fun _ => true
    firstResult := .error "Overloaded"
    retryResult := .error "Overloaded" }

/-- Extraction environment whose first request throws an image related
error and whose retry succeeds with an empty payload. -/
def envImageError : ClaudeService.PostEnv :=
  { download := fun _ => true
    firstResult := .error "invalid image data"
    retryResult := .ok (some {}) }

/-- A parsed payload whose single insight reports a confidence above one. -/
def paOver : ClaudeService.ParsedAnalysis :=
  { insights := [{ category := "STRATEGY", insight := "ask twice", confidence := some (3/2) }] }

/-- A parsed payload whose single insight reports a confidence of one half. -/
def paHalf : ClaudeService.ParsedAnalysis :=
  { insights := [{ category := "STRATEGY", insight := "plan", confidence := some (1/2) }] }

/-- Batch environment where every post scores zero relevance. -/
def envLowScore : ClaudeService.BatchEnv :=
  { score := fun _ => 0, analyze := fun _ => ClaudeService.emptyAnalysisResult }

/-- Worker configuration with the five second requeue delay of the tests. -/
def cfgW : RunProcessor.Config := ⟨5000⟩

/-- A queued run row. -/
def runQueued : RunProcessor.RunRow := { userId := "u", status := .queued }

/-- A provisioned login session payload. -/
def sessInfo : RunProcessor.SessionInfo := ⟨"sess-1", "https://connect.example"⟩

/-- Store state with a queued run, no active session, and a pending login
event. -/
def dbPending : RunProcessor.WorkerDb :=
  { run := some { userId := "u", status := .needs_login }
    activeSession := none
    pendingLogin := some sessInfo
    events := ["needs_login"]
    usage := none }

/-- Collaborator outcomes where cookie capture finds no cookies yet. -/
def envCaptureEmpty : RunProcessor.WorkerEnv :=
  { provision := .ok sessInfo, capture := .ok [], initResult := .ok (),
    pipeline := .ok ⟨0, []⟩ }

/-- Store state with a queued run and an active session. -/
def dbActive : RunProcessor.WorkerDb :=
  { run := some runQueued
    activeSession := some ["li_at=tok"]
    pendingLogin := none
    events := []
    usage := none }

/-- Collaborator outcomes where the scrape pipeline throws. -/
def envPipeFail : RunProcessor.WorkerEnv :=
  { provision := .ok sessInfo, capture := .ok [], initResult := .ok (),
    pipeline := .error "scrape failed" }

/-- Collaborator outcomes where the pipeline succeeds. -/
def envPipeOk : RunProcessor.WorkerEnv :=
  { provision := .ok sessInfo, capture := .ok [], initResult := .ok (),
    pipeline := .ok ⟨42, []⟩ }

/-- Store state whose run already carries the terminal failed status, as
left behind by a previous invocation that failed and rethrew to the queue
for a job level retry. -/
def dbTerminal : RunProcessor.WorkerDb :=
  { run := some { userId := "u", status := .failed, failureReason := some "boom" }
    activeSession := some ["li_at=tok"]
    pendingLogin := none
    events := ["status_running", "status_failed"]
    usage := some (1, 10) }

/-- Expert A reporting the SMYKM methodology. -/
def expertA : ExpertAnalysis :=
  { expert := { username := "A" }
    analysis := { methodologies := [{ name := "SMYKM", description := "show me you know me", application := some "first lines" }] } }

/-- Expert B reporting the same methodology with different case and text. -/
def expertB : ExpertAnalysis :=
  { expert := { username := "B" }
    analysis := { methodologies := [{ name := "smykm", description := "personalization framework" }] } }

end Fixtures

/-! ## Theorems -/

/-! ### Token chunking (claim C9) -/

theorem splitSectionsAux_flatten (cs : List Char) :
    ∀ acc : List Char, (TokenUtils.splitSectionsAux acc cs).flatten = acc.reverse ++ cs := by
  induction cs with
  | nil => intro acc; simp [TokenUtils.splitSectionsAux]
  | cons c rest ih =>
    intro acc
    unfold TokenUtils.splitSectionsAux
    split
    · simp [ih []]
    · simpa using ih (c :: acc)

theorem splitSections_flatten (t : List Char) : (TokenUtils.splitSections t).flatten = t := by
  simpa using splitSectionsAux_flatten t []

theorem packSection_foldl_flatten (maxTokens : Nat) (secs : List (List Char)) :
    ∀ st : TokenUtils.PackState,
      (secs.foldl (TokenUtils.packSection maxTokens) st).chunks.flatten ++
        (secs.foldl (TokenUtils.packSection maxTokens) st).current =
      st.chunks.flatten ++ st.current ++ secs.flatten := by
  induction secs with
  | nil => intro st; simp
  | cons s rest ih =>
    intro st
    simp only [List.foldl_cons, List.flatten_cons]
    rw [ih]
    by_cases h : st.currentTokens + TokenUtils.estimateTokens s > maxTokens ∧ st.current ≠ []
    · simp [TokenUtils.packSection, h]
    · simp [TokenUtils.packSection, h]

/-- Claim C9: for every text and every positive limit, concatenating the
chunks returned by splitByTokens reproduces the text exactly, and a text
whose token estimate is within the limit is returned whole as a singleton
list. -/
theorem c9_chunk_round_trip (t : List Char) (L : Nat) (_hL : 0 < L) :
    (TokenUtils.splitByTokens t L).flatten = t ∧
    (TokenUtils.estimateTokens t ≤ L → TokenUtils.splitByTokens t L = [t]) := by
  constructor
  · unfold TokenUtils.splitByTokens
    split
    · simp
    · have hp := packSection_foldl_flatten L (TokenUtils.splitSections t) ⟨[], [], 0⟩
      simp only [List.flatten_nil, List.nil_append] at hp
      rw [splitSections_flatten] at hp
      unfold TokenUtils.finishChunks
      split
      · simpa using hp
      · next hcur =>
        have hcur' : ((TokenUtils.splitSections t).foldl (TokenUtils.packSection L)
            ⟨[], [], 0⟩).current = [] := by
          by_contra hne; exact hcur hne
        rw [hcur', List.append_nil] at hp
        exact hp
  · intro h
    unfold TokenUtils.splitByTokens
    rw [if_pos h]

/-- Witness for claim C9 at a concrete text and limit. -/
theorem c9_chunk_round_trip_witness :
    0 < 2 ∧ (TokenUtils.splitByTokens ("## a\n## b").data 2).flatten = ("## a\n## b").data :=
  ⟨by decide, (c9_chunk_round_trip ("## a\n## b").data 2 (by decide)).1⟩

/-! ### Batch analysis (claims C4, C5, C6) -/

theorem chunked_flatten_le {α : Type} (n : Nat) :
    ∀ (k : Nat) (l : List α), l.length ≤ k → (chunked n l).flatten = l := by
  intro k
  induction k with
  | zero =>
    intro l hl
    have hnil : l = [] := List.eq_nil_of_length_eq_zero (Nat.le_zero.mp hl)
    subst hnil
    simp [chunked]
  | succ k ih =>
    intro l hl
    match l with
    | [] => simp [chunked]
    | x :: xs =>
      rw [chunked]
      simp only [List.flatten_cons]
      rw [ih (xs.drop (n - 1)) (by simp at hl ⊢; omega)]
      simp [List.take_append_drop]

theorem chunked_flatten {α : Type} (n : Nat) (l : List α) : (chunked n l).flatten = l :=
  chunked_flatten_le n l.length l le_rfl

/-- Claim C5: when every post scores at most six tenths in the relevance
pass, pass two is never invoked (no post is sent to extraction) and the
batch result has no insights, templates, actionable items or
methodologies. -/
theorem c5_low_relevance_skips_extraction (env : ClaudeService.BatchEnv)
    (batchSize : Nat) (posts : List LinkedInPost)
    (h : ∀ p ∈ posts, env.score p ≤ 6/10) :
    ClaudeService.batchAnalyzePosts env batchSize posts =
      (ClaudeService.emptyAnalysisResult, []) := by
  have hnil : ((chunked batchSize posts).flatMap
      (fun batch => batch.map (fun p => (p, env.score p)))).filter
        (fun pr => decide ((6 : ℚ)/10 < pr.2)) = [] := by
    rw [List.filter_eq_nil_iff]
    intro pr hpr
    simp only [List.mem_flatMap, List.mem_map] at hpr
    obtain ⟨batch, hb, p, hp, rfl⟩ := hpr
    have hpposts : p ∈ posts := by
      rw [← chunked_flatten batchSize posts]
      exact List.mem_flatten.mpr ⟨batch, hb, hp⟩
    simpa using not_lt.mpr (h p hpposts)
  unfold ClaudeService.batchAnalyzePosts
  simp [hnil]

/-- Witness for claim C5: two posts both scoring zero produce the empty
result with no pass-two calls. -/
theorem c5_low_relevance_skips_extraction_witness :
    (∀ p ∈ [Fixtures.post1, Fixtures.postImg], Fixtures.envLowScore.score p ≤ 6/10) ∧
    ClaudeService.batchAnalyzePosts Fixtures.envLowScore 5 [Fixtures.post1, Fixtures.postImg] =
      (ClaudeService.emptyAnalysisResult, []) :=
  ⟨fun p _ => by norm_num [Fixtures.envLowScore],
   c5_low_relevance_skips_extraction Fixtures.envLowScore 5 _
     (fun p _ => by norm_num [Fixtures.envLowScore])⟩

/-- Counterexample to claim C4 as stated: a post with no images whose
extraction request throws is not retried at all (a single request is
issued, not two), and the result is empty. -/
theorem c4_counterexample :
    Fixtures.envPlainError.firstResult = Except.error "Overloaded" ∧
    ClaudeService.analyzePost Fixtures.envPlainError Fixtures.post1 =
      (ClaudeService.emptyAnalysisResult, [ClaudeService.ApiCall.request []]) ∧
    (ClaudeService.analyzePost Fixtures.envPlainError Fixtures.post1).2.length = 1 := by
  refine ⟨rfl, ?_, ?_⟩ <;> decide

/-- Claim C4 as amended: when the extraction request throws, the request is
retried once with images stripped exactly when images were attached and
the error message contains the substring image, the result then being the
parse of the retry response (empty when the retry throws); in every other
failure case no retry happens and the result is empty.  In all cases the
call returns a value rather than throwing. -/
theorem c4_retry_policy (env : ClaudeService.PostEnv) (post : LinkedInPost)
    (msg : String) (hfirst : env.firstResult = .error msg) :
    (ClaudeService.attachedImages env post ≠ [] → strIncludes msg "image" = true →
      (ClaudeService.analyzePost env post).2 =
        [ClaudeService.ApiCall.request (ClaudeService.attachedImages env post),
         ClaudeService.ApiCall.request []] ∧
      (ClaudeService.analyzePost env post).1 =
        (match env.retryResult with
         | .ok parsed => ClaudeService.parseAnalysisResponse parsed post
         | .error _ => ClaudeService.emptyAnalysisResult)) ∧
    ((ClaudeService.attachedImages env post = [] ∨ strIncludes msg "image" = false) →
      ClaudeService.analyzePost env post =
        (ClaudeService.emptyAnalysisResult,
         [ClaudeService.ApiCall.request (ClaudeService.attachedImages env post)])) := by
  constructor
  · intro himg herr
    cases hr : env.retryResult with
    | ok parsed =>
      constructor <;> simp [ClaudeService.analyzePost, hfirst, hr, himg, herr]
    | error e =>
      constructor <;> simp [ClaudeService.analyzePost, hfirst, hr, himg, herr]
  · intro hno
    have hcond :
        ¬ (ClaudeService.attachedImages env post ≠ [] ∧ strIncludes msg "image" = true) := by
      rcases hno with hno | hno
      · intro hc; exact hc.1 hno
      · intro hc; rw [hno] at hc; exact Bool.false_ne_true hc.2
    simp [ClaudeService.analyzePost, hfirst, hcond]

/-- Witness for the amended claim C4: a post with an attached image and an
image related error is retried once without images. -/
theorem c4_retry_policy_witness :
    Fixtures.envImageError.firstResult = Except.error "invalid image data" ∧
    (ClaudeService.analyzePost Fixtures.envImageError Fixtures.postImg).2 =
      [ClaudeService.ApiCall.request ["https://img/1.png"],
       ClaudeService.ApiCall.request []] :=
  ⟨rfl, by
    have h := (c4_retry_policy Fixtures.envImageError Fixtures.postImg
      "invalid image data" rfl).1 (by decide) (by decide)
    exact h.1⟩

/-- Counterexample to claim C6 as stated: the AI extraction path performs
no clamping, so a parsed insight reporting a confidence of three halves is
emitted with that confidence, outside the unit interval. -/
theorem c6_counterexample :
    (ClaudeService.parseAnalysisResponse (some Fixtures.paOver) Fixtures.post1).insights.map
        (fun i => i.confidence) = [3/2] ∧
    ¬ ((3 : ℚ)/2 ≤ 1) := by
  constructor
  · norm_num [ClaudeService.parseAnalysisResponse, ClaudeService.mkInsight,
      ClaudeService.jsOrNum, Fixtures.paOver, List.enum]
  · norm_num

/-- Claim C6 as amended: every keyword-fallback confidence lies between one
tenth and one; on the AI path a missing or zero reported confidence becomes
one half, and the reported values pass through unclamped, so the produced
confidences lie in the unit interval exactly when the reported ones do. -/
theorem c6_confidence_bounds :
    (∀ (post : LinkedInPost) (k : Nat),
      1/10 ≤ InsightAnalyzer.calculateConfidence post k ∧
      InsightAnalyzer.calculateConfidence post k ≤ 1) ∧
    (∀ (pa : ClaudeService.ParsedAnalysis) (post : LinkedInPost),
      (∀ raw ∈ pa.insights, ∀ c, raw.confidence = some c → 0 ≤ c ∧ c ≤ 1) →
      ∀ i ∈ (ClaudeService.parseAnalysisResponse (some pa) post).insights,
        0 ≤ i.confidence ∧ i.confidence ≤ 1) := by
  constructor
  · intro post k
    unfold InsightAnalyzer.calculateConfidence
    constructor
    · exact le_min (le_max_right _ _) (by norm_num)
    · exact min_le_right _ _
  · intro pa post hh i hi
    simp only [ClaudeService.parseAnalysisResponse, List.mem_map] at hi
    obtain ⟨pr, hpr, rfl⟩ := hi
    have hraw : pr.2 ∈ pa.insights := by
      have := List.mem_map_of_mem Prod.snd hpr
      rwa [List.enum_map_snd] at this
    simp only [ClaudeService.mkInsight, ClaudeService.jsOrNum]
    cases hc : pr.2.confidence with
    | none => norm_num
    | some c =>
      by_cases hz : c = 0
      · simp [hz]; norm_num
      · simpa [hz] using hh pr.2 hraw c hc

/-- Witness for the amended claim C6: a concrete post with a concrete
keyword count, and a parsed payload whose reported confidence is one half. -/
theorem c6_confidence_bounds_witness :
    (1/10 ≤ InsightAnalyzer.calculateConfidence Fixtures.post1 3 ∧
      InsightAnalyzer.calculateConfidence Fixtures.post1 3 ≤ 1) ∧
    (∀ i ∈ (ClaudeService.parseAnalysisResponse (some Fixtures.paHalf) Fixtures.post1).insights,
      0 ≤ i.confidence ∧ i.confidence ≤ 1) :=
  ⟨c6_confidence_bounds.1 Fixtures.post1 3,
   c6_confidence_bounds.2 Fixtures.paHalf Fixtures.post1
     (by
       intro raw hraw c hc
       simp only [Fixtures.paHalf, List.mem_singleton] at hraw
       subst hraw
       simp only [Option.some.injEq] at hc
       subst hc
       norm_num)⟩

/-! ### First-occurrence deduplication lemmas (claims C7, C8) -/

theorem keepFirstByAux_append {α κ : Type} [DecidableEq κ] (f : α → κ)
    (l1 l2 : List α) : ∀ seen : List κ,
    keepFirstByAux f seen (l1 ++ l2) =
      keepFirstByAux f seen l1 ++ keepFirstByAux f (seenAfter f seen l1) l2 := by
  induction l1 with
  | nil => intro seen; simp [keepFirstByAux, seenAfter]
  | cons x xs ih =>
    intro seen
    by_cases hx : f x ∈ seen
    · simp [keepFirstByAux, seenAfter, hx, ih]
    · simp [keepFirstByAux, seenAfter, hx, ih]

theorem seenAfter_append {α κ : Type} [DecidableEq κ] (f : α → κ)
    (l1 l2 : List α) : ∀ seen : List κ,
    seenAfter f seen (l1 ++ l2) = seenAfter f (seenAfter f seen l1) l2 := by
  induction l1 with
  | nil => intro seen; simp [seenAfter]
  | cons x xs ih =>
    intro seen
    by_cases hx : f x ∈ seen
    · simp [seenAfter, hx, ih]
    · simp [seenAfter, hx, ih]

theorem mem_seenAfter {α κ : Type} [DecidableEq κ] (f : α → κ) (a : κ)
    (l : List α) : ∀ seen : List κ,
    (a ∈ seenAfter f seen l ↔ a ∈ seen ∨ a ∈ l.map f) := by
  induction l with
  | nil => intro seen; simp [seenAfter]
  | cons x xs ih =>
    intro seen
    simp only [seenAfter, List.map_cons, List.mem_cons]
    by_cases hx : f x ∈ seen
    · rw [if_pos hx, ih]
      constructor
      · tauto
      · rintro (h | h | h)
        · tauto
        · subst h; tauto
        · tauto
    · rw [if_neg hx, ih]
      simp only [List.mem_cons]
      tauto

theorem mem_keepFirstByAux_id {κ : Type} [DecidableEq κ] (a : κ)
    (l : List κ) : ∀ seen : List κ,
    (a ∈ keepFirstByAux id seen l ↔ a ∈ l ∧ a ∉ seen) := by
  induction l with
  | nil => intro seen; simp [keepFirstByAux]
  | cons x xs ih =>
    intro seen
    simp only [keepFirstByAux, id_eq, List.mem_cons]
    by_cases hx : x ∈ seen
    · rw [if_pos hx, ih]
      constructor
      · tauto
      · rintro ⟨h | h, hns⟩
        · subst h; exact absurd hx hns
        · exact ⟨h, hns⟩
    · rw [if_neg hx]
      simp only [List.mem_cons, ih]
      by_cases hax : a = x
      · subst hax; simp [hx]
      · simp only [hax, false_or]
        try tauto

theorem mem_keepFirstBy_id {κ : Type} [DecidableEq κ] (a : κ) (l : List κ) :
    a ∈ keepFirstBy id l ↔ a ∈ l := by
  simp [keepFirstBy, mem_keepFirstByAux_id]

theorem nodup_keepFirstByAux_id {κ : Type} [DecidableEq κ] (l : List κ) :
    ∀ seen : List κ, (keepFirstByAux id seen l).Nodup := by
  induction l with
  | nil => intro seen; simp [keepFirstByAux]
  | cons x xs ih =>
    intro seen
    simp only [keepFirstByAux, id_eq]
    by_cases hx : x ∈ seen
    · rw [if_pos hx]; exact ih seen
    · rw [if_neg hx]
      rw [List.nodup_cons]
      refine ⟨?_, ih _⟩
      intro hmem
      have := (mem_keepFirstByAux_id x xs (x :: seen)).mp hmem
      simp at this

theorem keepFirstBy_id_snoc {κ : Type} [DecidableEq κ] (l : List κ) (x : κ) :
    keepFirstBy id (l ++ [x]) =
      if x ∈ l then keepFirstBy id l else keepFirstBy id l ++ [x] := by
  unfold keepFirstBy
  rw [keepFirstByAux_append]
  by_cases hx : x ∈ l
  · rw [if_pos hx]
    have h1 : keepFirstByAux id (seenAfter id ([] : List κ) l) [x] = [] := by
      have hm : x ∈ seenAfter id ([] : List κ) l := by
        rw [mem_seenAfter]
        right
        simpa using hx
      simp [keepFirstByAux, hm]
    rw [h1, List.append_nil]
  · rw [if_neg hx]
    have h1 : keepFirstByAux id (seenAfter id ([] : List κ) l) [x] = [x] := by
      have hm : ¬ (x ∈ seenAfter id ([] : List κ) l) := by
        rw [mem_seenAfter]
        simpa using hx
      simp [keepFirstByAux, hm]
    rw [h1]

/-! ### Cross-expert insight merge (claim C7) -/

theorem foldl_dedupPush (xs : List SalesInsight) :
    ∀ (out : List SalesInsight) (seen : List String),
    xs.foldl AggregationFormatter.dedupPush (out, seen) =
      (out ++ keepFirstByAux (fun i => AggregationFormatter.normalizedKey i.insight) seen xs,
       seenAfter (fun i => AggregationFormatter.normalizedKey i.insight) seen xs) := by
  induction xs with
  | nil => intro out seen; simp [keepFirstByAux, seenAfter]
  | cons x xs ih =>
    intro out seen
    by_cases hx : AggregationFormatter.normalizedKey x.insight ∈ seen
    · simp [AggregationFormatter.dedupPush, hx, ih, keepFirstByAux, seenAfter]
    · simp [AggregationFormatter.dedupPush, hx, ih, keepFirstByAux, seenAfter]

theorem foldl_collect_insights (analyses : List ExpertAnalysis) :
    ∀ (out : List SalesInsight) (seen : List String),
    analyses.foldl (fun acc ea => ea.analysis.insights.foldl AggregationFormatter.dedupPush acc)
        (out, seen) =
      (out ++ keepFirstByAux (fun i => AggregationFormatter.normalizedKey i.insight) seen
         (analyses.flatMap (fun ea => ea.analysis.insights)),
       seenAfter (fun i => AggregationFormatter.normalizedKey i.insight) seen
         (analyses.flatMap (fun ea => ea.analysis.insights))) := by
  induction analyses with
  | nil => intro out seen; simp [keepFirstByAux, seenAfter]
  | cons ea rest ih =>
    intro out seen
    simp only [List.foldl_cons, foldl_dedupPush, ih, List.flatMap_cons,
      keepFirstByAux_append, seenAfter_append, List.append_assoc]

/-- Claim C7: the aggregated insight list equals the concatenation of all
experts insights with only the first occurrence of each lowercased and
trimmed full text kept, sorted by confidence descending, and the output is
indeed ordered by descending confidence. -/
theorem c7_insight_merge (analyses : List ExpertAnalysis) :
    AggregationFormatter.deduplicateInsights analyses =
      AggregationFormatter.specCombinedInsights analyses ∧
    (AggregationFormatter.deduplicateInsights analyses).Pairwise
      (fun a b => b.confidence ≤ a.confidence) := by
  have htrans : ∀ a b c : SalesInsight,
      decide (b.confidence ≤ a.confidence) = true →
      decide (c.confidence ≤ b.confidence) = true →
      decide (c.confidence ≤ a.confidence) = true := by
    intro a b c h1 h2
    simp only [decide_eq_true_eq] at *
    exact le_trans h2 h1
  have htotal : ∀ a b : SalesInsight,
      (decide (b.confidence ≤ a.confidence) || decide (a.confidence ≤ b.confidence)) = true := by
    intro a b
    simp only [Bool.or_eq_true, decide_eq_true_eq]
    exact le_total b.confidence a.confidence
  constructor
  · unfold AggregationFormatter.deduplicateInsights AggregationFormatter.specCombinedInsights
    rw [foldl_collect_insights]
    rfl
  · unfold AggregationFormatter.deduplicateInsights AggregationFormatter.sortByConfidenceDesc
    exact (List.sorted_mergeSort htrans htotal _).imp (fun h => of_decide_eq_true h)

/-! ### Cross-expert methodology merge (claim C8) -/

theorem foldl_insertMeth_eq_processOccs (analyses : List ExpertAnalysis) :
    ∀ m : List AggregationFormatter.MethEntry,
      analyses.foldl
        (fun m ea => ea.analysis.methodologies.foldl
          (fun m meth => AggregationFormatter.insertMeth ea.expert.username meth m) m) m =
      AggregationFormatter.processOccs m (AggregationFormatter.methOccurrences analyses) := by
  induction analyses with
  | nil =>
    intro m
    simp [AggregationFormatter.processOccs, AggregationFormatter.methOccurrences]
  | cons ea rest ih =>
    intro m
    have hinner : ea.analysis.methodologies.foldl
        (fun m meth => AggregationFormatter.insertMeth ea.expert.username meth m) m =
        AggregationFormatter.processOccs m
          (ea.analysis.methodologies.map (fun meth => (ea.expert.username, meth))) := by
      rw [AggregationFormatter.processOccs, List.foldl_map]
    simp only [List.foldl_cons, hinner, ih, AggregationFormatter.methOccurrences,
      List.flatMap_cons]
    rw [AggregationFormatter.processOccs, AggregationFormatter.processOccs,
      AggregationFormatter.processOccs, List.foldl_append]

theorem occsWithKey_snoc (occs : List (String × Methodology)) (o : String × Methodology)
    (k : String) :
    AggregationFormatter.occsWithKey (occs ++ [o]) k =
      AggregationFormatter.occsWithKey occs k ++
        (if jsToLower o.2.name = k then [o] else []) := by
  by_cases h : jsToLower o.2.name = k
  · simp [AggregationFormatter.occsWithKey, List.filter_append, h]
  · simp [AggregationFormatter.occsWithKey, List.filter_append, h]

theorem occsWithKey_ne_nil_iff (occs : List (String × Methodology)) (k : String) :
    AggregationFormatter.occsWithKey occs k ≠ [] ↔
      k ∈ occs.map (fun o => jsToLower o.2.name) := by
  rw [Ne, AggregationFormatter.occsWithKey, List.filter_eq_nil_iff]
  push_neg
  simp only [decide_eq_true_eq, List.mem_map]

theorem specMethEntry_key (occs : List (String × Methodology)) (k : String)
    (hk : k ∈ occs.map (fun o => jsToLower o.2.name)) :
    jsToLower (AggregationFormatter.specMethEntry occs k).name = k := by
  have hne := (occsWithKey_ne_nil_iff occs k).mpr hk
  cases hocc : AggregationFormatter.occsWithKey occs k with
  | nil => exact absurd hocc hne
  | cons hd rest =>
    obtain ⟨u0, m0⟩ := hd
    have hhd : (u0, m0) ∈ AggregationFormatter.occsWithKey occs k := by
      rw [hocc]; exact List.mem_cons_self _ _
    rw [AggregationFormatter.occsWithKey] at hhd
    have hpred : jsToLower m0.name = k := by
      have := List.of_mem_filter hhd
      simpa using this
    rw [AggregationFormatter.specMethEntry, hocc]
    exact hpred

theorem specMethEntry_snoc_ne (occs : List (String × Methodology))
    (o : String × Methodology) (k : String) (hne : jsToLower o.2.name ≠ k) :
    AggregationFormatter.specMethEntry (occs ++ [o]) k =
      AggregationFormatter.specMethEntry occs k := by
  rw [AggregationFormatter.specMethEntry, AggregationFormatter.specMethEntry,
    occsWithKey_snoc, if_neg hne, List.append_nil]

theorem insertMeth_of_not_mem (u : String) (meth : Methodology) :
    ∀ m : List AggregationFormatter.MethEntry,
      (∀ e ∈ m, jsToLower e.name ≠ jsToLower meth.name) →
      AggregationFormatter.insertMeth u meth m =
        m ++ [⟨meth.name, meth.description, meth.application, [u]⟩] := by
  intro m
  induction m with
  | nil => intro _; rfl
  | cons e es ih =>
    intro h
    rw [AggregationFormatter.insertMeth, if_neg (h e (List.mem_cons_self e es)),
      ih (fun x hx => h x (List.mem_cons_of_mem e hx)), List.cons_append]

theorem insertMeth_map_update (u : String) (meth : Methodology)
    (entry : String → AggregationFormatter.MethEntry) :
    ∀ ks : List String,
      (∀ x ∈ ks, jsToLower (entry x).name = x) → ks.Nodup →
      jsToLower meth.name ∈ ks →
      AggregationFormatter.insertMeth u meth (ks.map entry) =
        ks.map (fun x =>
          if x = jsToLower meth.name then AggregationFormatter.updEntry u (entry x)
          else entry x) := by
  intro ks
  induction ks with
  | nil => intro _ _ h; simp at h
  | cons k' ks ih =>
    intro hkey hnd hmem
    simp only [List.map_cons]
    by_cases hk : k' = jsToLower meth.name
    · have hcond : jsToLower (entry k').name = jsToLower meth.name := by
        rw [hkey k' (List.mem_cons_self k' ks)]; exact hk
      rw [AggregationFormatter.insertMeth, if_pos hcond, if_pos hk]
      congr 1
      apply List.map_congr_left
      intro x hx
      have hxk : x ≠ jsToLower meth.name := by
        intro hcontra
        have hxk' : x = k' := by rw [hcontra, hk]
        exact (List.nodup_cons.mp hnd).1 (hxk' ▸ hx)
      rw [if_neg hxk]
    · have hcond : ¬ (jsToLower (entry k').name = jsToLower meth.name) := by
        rw [hkey k' (List.mem_cons_self k' ks)]; exact hk
      rw [AggregationFormatter.insertMeth, if_neg hcond, if_neg hk]
      have hmem' : jsToLower meth.name ∈ ks := by
        rcases List.mem_cons.mp hmem with h | h
        · exact absurd h.symm hk
        · exact h
      rw [ih (fun x hx => hkey x (List.mem_cons_of_mem k' hx))
        (List.nodup_cons.mp hnd).2 hmem']

theorem specMethEntry_snoc_eq (occs : List (String × Methodology))
    (o : String × Methodology)
    (hk : jsToLower o.2.name ∈ occs.map (fun x => jsToLower x.2.name)) :
    AggregationFormatter.specMethEntry (occs ++ [o]) (jsToLower o.2.name) =
      AggregationFormatter.updEntry o.1
        (AggregationFormatter.specMethEntry occs (jsToLower o.2.name)) := by
  have hne := (occsWithKey_ne_nil_iff occs (jsToLower o.2.name)).mpr hk
  cases hocc : AggregationFormatter.occsWithKey occs (jsToLower o.2.name) with
  | nil => exact absurd hocc hne
  | cons hd rest =>
    obtain ⟨u0, m0⟩ := hd
    have hsnoc : AggregationFormatter.occsWithKey (occs ++ [o]) (jsToLower o.2.name) =
        (u0, m0) :: (rest ++ [o]) := by
      rw [occsWithKey_snoc, hocc, if_pos rfl, List.cons_append]
    rw [AggregationFormatter.specMethEntry, AggregationFormatter.specMethEntry, hsnoc, hocc]
    show AggregationFormatter.MethEntry.mk m0.name m0.description m0.application
        (keepFirstBy id (u0 :: (rest ++ [o]).map (fun p => p.1))) =
      AggregationFormatter.updEntry o.1
        ⟨m0.name, m0.description, m0.application,
          keepFirstBy id (u0 :: rest.map (fun p => p.1))⟩
    simp only [AggregationFormatter.updEntry]
    have hcons : u0 :: (rest ++ [o]).map (fun p => p.1) =
        (u0 :: rest.map (fun p => p.1)) ++ [o.1] := by simp
    rw [hcons, keepFirstBy_id_snoc]
    have hmemiff : o.1 ∈ keepFirstBy id (u0 :: rest.map (fun p => p.1)) ↔
        o.1 ∈ u0 :: rest.map (fun p => p.1) := mem_keepFirstBy_id _ _
    by_cases hu : o.1 ∈ u0 :: rest.map (fun p => p.1)
    · rw [if_pos hu, if_pos (hmemiff.mpr hu)]
    · rw [if_neg hu, if_neg (fun hc => hu (hmemiff.mp hc))]

theorem specCombineOccs_snoc (occs : List (String × Methodology))
    (o : String × Methodology) :
    AggregationFormatter.specCombineOccs (occs ++ [o]) =
      AggregationFormatter.insertMeth o.1 o.2 (AggregationFormatter.specCombineOccs occs) := by
  have hmapkeys : (occs ++ [o]).map (fun x => jsToLower x.2.name) =
      occs.map (fun x => jsToLower x.2.name) ++ [jsToLower o.2.name] := by simp
  have hkeyspec : ∀ x ∈ keepFirstBy id (occs.map (fun x => jsToLower x.2.name)),
      jsToLower (AggregationFormatter.specMethEntry occs x).name = x := by
    intro x hx
    exact specMethEntry_key occs x ((mem_keepFirstBy_id x _).mp hx)
  by_cases hk : jsToLower o.2.name ∈ occs.map (fun x => jsToLower x.2.name)
  · rw [AggregationFormatter.specCombineOccs, AggregationFormatter.specCombineOccs,
      hmapkeys, keepFirstBy_id_snoc, if_pos hk]
    rw [insertMeth_map_update o.1 o.2 _ _ hkeyspec (nodup_keepFirstByAux_id _ _)
      ((mem_keepFirstBy_id _ _).mpr hk)]
    apply List.map_congr_left
    intro x hx
    by_cases hxk : x = jsToLower o.2.name
    · rw [if_pos hxk, hxk]
      exact specMethEntry_snoc_eq occs o hk
    · rw [if_neg hxk]
      exact specMethEntry_snoc_ne occs o x (fun h => hxk h.symm)
  · rw [AggregationFormatter.specCombineOccs, AggregationFormatter.specCombineOccs,
      hmapkeys, keepFirstBy_id_snoc, if_neg hk, List.map_append]
    rw [insertMeth_of_not_mem o.1 o.2 _ (by
      intro e he
      obtain ⟨x, hx, rfl⟩ := List.mem_map.mp he
      rw [specMethEntry_key occs x ((mem_keepFirstBy_id x _).mp hx)]
      intro hcontra
      exact hk (by rw [hcontra] at hx; exact (mem_keepFirstBy_id _ _).mp hx))]
    congr 1
    · apply List.map_congr_left
      intro x hx
      have hxk : jsToLower o.2.name ≠ x := by
        intro hcontra
        exact hk (by rw [← hcontra] at hx; exact (mem_keepFirstBy_id _ _).mp hx)
      exact specMethEntry_snoc_ne occs o x hxk
    · have hnil : AggregationFormatter.occsWithKey occs (jsToLower o.2.name) = [] := by
        by_contra hne
        exact hk ((occsWithKey_ne_nil_iff occs _).mp hne)
      simp only [List.map_cons, List.map_nil]
      rw [AggregationFormatter.specMethEntry, occsWithKey_snoc, hnil, if_pos rfl,
        List.nil_append]
      simp [keepFirstBy, keepFirstByAux]

theorem processOccs_nil_eq_spec (occs : List (String × Methodology)) :
    AggregationFormatter.processOccs [] occs =
      AggregationFormatter.specCombineOccs occs := by
  induction occs using List.reverseRecOn with
  | nil => rfl
  | append_singleton occs o ih =>
    rw [AggregationFormatter.processOccs, List.foldl_append, List.foldl_cons, List.foldl_nil]
    rw [show List.foldl (fun m o => AggregationFormatter.insertMeth o.1 o.2 m) [] occs =
      AggregationFormatter.processOccs [] occs from rfl]
    rw [ih, specCombineOccs_snoc]

/-- Claim C8: the combined methodologies contain exactly one entry per
lowercased name, carrying the first occurrence content, with the sources
holding each contributing expert username once in order; concretely, the
SMYKM scenario with two case-different reports yields one entry with the
first expert content and sources A then B. -/
theorem c8_methodology_merge :
    (∀ analyses : List ExpertAnalysis,
      AggregationFormatter.combineMethodologies analyses =
        AggregationFormatter.specCombinedMethodologies analyses) ∧
    AggregationFormatter.combineMethodologies [Fixtures.expertA, Fixtures.expertB] =
      [⟨"SMYKM", "show me you know me", some "first lines", ["A", "B"]⟩] := by
  constructor
  · intro analyses
    rw [AggregationFormatter.combineMethodologies, foldl_insertMeth_eq_processOccs,
      processOccs_nil_eq_spec, AggregationFormatter.specCombinedMethodologies]
  · decide

/-! ### Worker run lifecycle (claims C1, C2, C3, C10) -/

/-- Claim C1: with no active session, when either the cookie capture finds
an empty array or throws (pending login), or a login session is freshly
provisioned, the invocation re-enqueues exactly one follow-up job with the
fixed delay, rethrows nothing, writes at most the needs login status, and
leaves the run status at its previous value or at needs login — never
failed. -/
theorem c1_login_requeue_never_fails
    (cfg : RunProcessor.Config) (env : RunProcessor.WorkerEnv)
    (db : RunProcessor.WorkerDb) (run : RunProcessor.RunRow)
    (hrun : db.run = some run) (hsess : db.activeSession = none)
    (hcond : (db.pendingLogin ≠ none ∧
        (env.capture = Except.ok [] ∨ ∃ e, env.capture = Except.error e)) ∨
      (db.pendingLogin = none ∧ ∃ i, env.provision = Except.ok i)) :
    (RunProcessor.processRunJob cfg env db).requeues = [cfg.requeueDelayMs] ∧
    (RunProcessor.processRunJob cfg env db).thrown = none ∧
    (∀ s ∈ (RunProcessor.processRunJob cfg env db).statusWrites,
      s = RunProcessor.RunStatus.needs_login) ∧
    (∀ r, (RunProcessor.processRunJob cfg env db).db.run = some r →
      r.status = run.status ∨ r.status = RunProcessor.RunStatus.needs_login) := by
  obtain ⟨orun, osess, opend, evs, ous⟩ := db
  simp only at hrun hsess
  subst hrun
  subst hsess
  rcases hcond with ⟨hp, hcap⟩ | ⟨hp, i, hi⟩
  · cases opend with
    | none => exact absurd rfl hp
    | some p =>
      rcases hcap with hcap | ⟨e, hcap⟩
      · simp [RunProcessor.processRunJob, hcap]
      · simp [RunProcessor.processRunJob, hcap]
  · simp only at hp
    subst hp
    simp [RunProcessor.processRunJob, hi]

/-- Witness for claim C1: empty cookie capture on a pending login produces
one requeue with the configured delay and no rethrown error. -/
theorem c1_login_requeue_never_fails_witness :
    Fixtures.dbPending.activeSession = none ∧
    Fixtures.envCaptureEmpty.capture = Except.ok [] ∧
    (RunProcessor.processRunJob Fixtures.cfgW Fixtures.envCaptureEmpty
      Fixtures.dbPending).requeues = [Fixtures.cfgW.requeueDelayMs] ∧
    (RunProcessor.processRunJob Fixtures.cfgW Fixtures.envCaptureEmpty
      Fixtures.dbPending).thrown = none :=
  ⟨rfl, rfl,
   (c1_login_requeue_never_fails Fixtures.cfgW Fixtures.envCaptureEmpty Fixtures.dbPending
     { userId := "u", status := RunProcessor.RunStatus.needs_login }
     rfl rfl (Or.inl ⟨by decide, Or.inl rfl⟩)).1,
   (c1_login_requeue_never_fails Fixtures.cfgW Fixtures.envCaptureEmpty Fixtures.dbPending
     { userId := "u", status := RunProcessor.RunStatus.needs_login }
     rfl rfl (Or.inl ⟨by decide, Or.inl rfl⟩)).2.1⟩

/-- Claim C2: when the processing pipeline throws with a resolved session,
exactly one failed status is written, the run row carries failed with the
exception message as failure reason, exactly one failed status event is
added, the error is rethrown, and the scraper is closed; the scraper is
also closed when the pipeline succeeds. -/
theorem c2_failure_recording
    (cfg : RunProcessor.Config) (env : RunProcessor.WorkerEnv)
    (db : RunProcessor.WorkerDb) (run : RunProcessor.RunRow)
    (cookies : List String) (msg : String)
    (hrun : db.run = some run) (hsess : db.activeSession = some cookies)
    (hinit : env.initResult = Except.ok ()) (hpipe : env.pipeline = Except.error msg) :
    (RunProcessor.processRunJob cfg env db).statusWrites.count
      RunProcessor.RunStatus.failed = 1 ∧
    (∀ r, (RunProcessor.processRunJob cfg env db).db.run = some r →
      r.status = RunProcessor.RunStatus.failed ∧ r.failureReason = some msg) ∧
    (RunProcessor.processRunJob cfg env db).db.events.count "status_failed" =
      db.events.count "status_failed" + 1 ∧
    (RunProcessor.processRunJob cfg env db).scraperClosed = true ∧
    (RunProcessor.processRunJob cfg env db).thrown = some msg ∧
    (∀ (env2 : RunProcessor.WorkerEnv) (db2 : RunProcessor.WorkerDb)
      (cookies2 : List String) (res2 : RunProcessor.PipelineResult),
      db2.run ≠ none → db2.activeSession = some cookies2 →
      env2.initResult = Except.ok () → env2.pipeline = Except.ok res2 →
      (RunProcessor.processRunJob cfg env2 db2).scraperClosed = true) := by
  obtain ⟨orun, osess, opend, evs, ous⟩ := db
  simp only at hrun hsess
  subst hrun
  subst hsess
  refine ⟨?_, ?_, ?_, ?_, ?_, ?_⟩
  · simp only [RunProcessor.processRunJob, RunProcessor.runWithSession, hinit, hpipe,
      RunProcessor.updateRunStatusDb]
    decide
  · intro r hr
    simp only [RunProcessor.processRunJob, RunProcessor.runWithSession, hinit, hpipe,
      RunProcessor.updateRunStatusDb, Option.map] at hr
    injection hr with h
    subst h
    simp
  · simp only [RunProcessor.processRunJob, RunProcessor.runWithSession, hinit, hpipe,
      RunProcessor.updateRunStatusDb, RunProcessor.statusName]
    rw [List.append_assoc, List.count_append]
    have h1 : List.count "status_failed" (["status_" ++ "running"] ++ ["status_" ++ "failed"]) = 1 := by
      decide
    rw [h1]
  · simp [RunProcessor.processRunJob, RunProcessor.runWithSession, hinit, hpipe]
  · simp [RunProcessor.processRunJob, RunProcessor.runWithSession, hinit, hpipe]
  · intro env2 db2 cookies2 res2 h2run h2sess h2init h2pipe
    obtain ⟨orun2, osess2, opend2, evs2, ous2⟩ := db2
    simp only at h2run h2sess
    subst h2sess
    cases orun2 with
    | none => exact absurd rfl h2run
    | some run2 =>
      simp [RunProcessor.processRunJob, RunProcessor.runWithSession, h2init, h2pipe]

/-- Witness for claim C2: a failing scrape pipeline on a queued run with an
active session records exactly one failed status write and closes the
scraper. -/
theorem c2_failure_recording_witness :
    Fixtures.dbActive.activeSession = some ["li_at=tok"] ∧
    (RunProcessor.processRunJob Fixtures.cfgW Fixtures.envPipeFail
      Fixtures.dbActive).statusWrites.count RunProcessor.RunStatus.failed = 1 ∧
    (RunProcessor.processRunJob Fixtures.cfgW Fixtures.envPipeFail
      Fixtures.dbActive).scraperClosed = true :=
  ⟨rfl,
   (c2_failure_recording Fixtures.cfgW Fixtures.envPipeFail Fixtures.dbActive
     Fixtures.runQueued ["li_at=tok"] "scrape failed" rfl rfl rfl rfl).1,
   (c2_failure_recording Fixtures.cfgW Fixtures.envPipeFail Fixtures.dbActive
     Fixtures.runQueued ["li_at=tok"] "scrape failed" rfl rfl rfl rfl).2.2.2.1⟩

/-- Counterexample to claim C3 as stated: a run whose status is already the
terminal failed value is processed again (the failed path rethrows to the
queue, whose retry policy re-runs the job), and updateRunStatus performs no
guard, so the invocation overwrites the terminal status, writing running
and then completed. -/
theorem c3_counterexample :
    Fixtures.dbTerminal.run.map (fun r => r.status) = some RunProcessor.RunStatus.failed ∧
    (RunProcessor.processRunJob Fixtures.cfgW Fixtures.envPipeOk
      Fixtures.dbTerminal).db.run.map (fun r => r.status) =
        some RunProcessor.RunStatus.completed ∧
    (RunProcessor.processRunJob Fixtures.cfgW Fixtures.envPipeOk
      Fixtures.dbTerminal).statusWrites =
      [RunProcessor.RunStatus.running, RunProcessor.RunStatus.completed] := by
  refine ⟨rfl, ?_, ?_⟩ <;> decide

/-- Claim C3 as amended: within any single invocation of processRunJob the
run status values written are strictly increasing in the state machine
order (so the machine is respected per invocation); across invocations no
guard protects a terminal status. -/
theorem c3_monotonic_within_invocation
    (cfg : RunProcessor.Config) (env : RunProcessor.WorkerEnv)
    (db : RunProcessor.WorkerDb) :
    ((RunProcessor.processRunJob cfg env db).statusWrites).Chain'
      (fun a b => RunProcessor.statusRank a < RunProcessor.statusRank b) := by
  obtain ⟨orun, osess, opend, evs, ous⟩ := db
  cases orun with
  | none => simp [RunProcessor.processRunJob]
  | some run =>
    cases osess with
    | some ck =>
      cases hinit : env.initResult with
      | error e => simp [RunProcessor.processRunJob, RunProcessor.runWithSession, hinit]
      | ok u =>
        cases u
        cases hpipe : env.pipeline with
        | error e =>
          simp only [RunProcessor.processRunJob, RunProcessor.runWithSession, hinit, hpipe]
          simp [List.chain'_cons, RunProcessor.statusRank]
        | ok res =>
          simp only [RunProcessor.processRunJob, RunProcessor.runWithSession, hinit, hpipe]
          simp [List.chain'_cons, RunProcessor.statusRank]
    | none =>
      cases opend with
      | some p =>
        cases hcap : env.capture with
        | error e => simp [RunProcessor.processRunJob, hcap]
        | ok cs =>
          cases cs with
          | nil => simp [RunProcessor.processRunJob, hcap]
          | cons c cs =>
            cases hinit : env.initResult with
            | error e =>
              simp [RunProcessor.processRunJob, RunProcessor.runWithSession, hcap, hinit]
            | ok u =>
              cases u
              cases hpipe : env.pipeline with
              | error e =>
                simp only [RunProcessor.processRunJob, RunProcessor.runWithSession, hcap,
                  hinit, hpipe]
                simp [List.chain'_cons, RunProcessor.statusRank]
              | ok res =>
                simp only [RunProcessor.processRunJob, RunProcessor.runWithSession, hcap,
                  hinit, hpipe]
                simp [List.chain'_cons, RunProcessor.statusRank]
      | none =>
        cases hprov : env.provision with
        | error e => simp [RunProcessor.processRunJob, hprov]
        | ok i => simp [RunProcessor.processRunJob, hprov]

/-- Claim C10, evaluated at the failing input: sequential increments add up
(the function is additive run one after another), but the caller computes
the upserted value from a prior read, so two increments racing from the
same snapshot lose one of the additions — final tokens seven instead of
twelve. -/
theorem c10_usage_read_modify_write :
    (∀ r n t : Nat, RunProcessor.incrementTokenUsage (some (r, n)) t = (r, n + t)) ∧
    RunProcessor.seqTokenIncrements (some (0, 0)) 5 7 = some (0, 12) ∧
    RunProcessor.racedTokenIncrements (some (0, 0)) 5 7 = some (0, 7) ∧
    RunProcessor.racedTokenIncrements (some (0, 0)) 5 7 ≠ some (0, 5 + 7) :=
  ⟨fun r n t => rfl, by decide, by decide, by decide⟩
